import Mathlib

/-!
Verification of the `hl` line highlighter (src/main.rs).

Lines, patterns and escape sequences are modelled as `List Char`; the
stateful writes of the Rust program are modelled by returning the list of
characters written for one line.  Fallible steps return `Except`/`Option`.
All definitions are translated from src/main.rs, keeping the source's
names where Lean allows it.
-/

/-- `leadsWith p s` embeds Rust `s.starts_with(p)`: `p` is an initial
segment of `s`. -/
def leadsWith : List Char → List Char → Bool
  | [], _ => true
  | _ :: _, [] => false
  | a :: as, b :: bs => a == b && leadsWith as bs

/-- Index of the first occurrence of `pat` as a contiguous substring of
`s` (the search Rust's `str::find`/`split_once` perform). -/
def subIdx? (pat : List Char) : List Char → Option Nat
  | [] => if pat = [] then some 0 else none
  | c :: rest =>
    if leadsWith pat (c :: rest) then some 0
    else (subIdx? pat rest).map (· + 1)

/-- Embeds Rust `s.split_once(pat)`: the pieces before and after the
first occurrence of `pat`, the occurrence itself removed. -/
def splitOnce? (s pat : List Char) : Option (List Char × List Char) :=
  (subIdx? pat s).map fun i => (s.take i, s.drop (i + pat.length))

/-- Worker for `splitInclusive`, structurally recursive on a fuel bound
so that it evaluates in the kernel.  `fuel ≥ s.length` suffices whenever
`pat ≠ []` (the configuration guarantees a non-empty delimiter). -/
def splitInclusiveGo (pat : List Char) : Nat → List Char → List (List Char)
  | _, [] => []
  | 0, s => [s]
  | fuel + 1, s =>
    match subIdx? pat s with
    | none => [s]
    | some i =>
      if pat = [] then [s]
      else s.take (i + pat.length) :: splitInclusiveGo pat fuel (s.drop (i + pat.length))

/-- Embeds Rust `s.split_inclusive(pat)` for a non-empty pattern: the
consecutive segments of `s`, each ending with its occurrence of `pat`
except possibly the last; the empty string yields no segments.  (Rust's
empty-pattern boundary matching is not modelled: the configuration's
delimiter is non-empty text.) -/
def splitInclusive (pat s : List Char) : List (List Char) :=
  splitInclusiveGo pat s.length s

/-- Embeds Rust `str::trim` (whitespace removed from both ends). -/
def trimChars (s : List Char) : List Char :=
  ((s.dropWhile Char.isWhitespace).reverse.dropWhile Char.isWhitespace).reverse

/-- Value of an ASCII decimal digit, as in Rust's integer parsers. -/
def digitVal? (c : Char) : Option Nat :=
  if '0' ≤ c ∧ c ≤ '9' then some (c.toNat - 48) else none

/-- Left-to-right accumulation of decimal digits; `none` on the first
non-digit character. -/
def parseDigits (acc : Nat) : List Char → Option Nat
  | [] => some acc
  | c :: rest =>
    match digitVal? c with
    | some d => parseDigits (acc * 10 + d) rest
    | none => none

/-- A non-empty all-digit string parsed to its value. -/
def digitsOnly? (s : List Char) : Option Nat :=
  match s with
  | [] => none
  | _ => parseDigits 0 s

/-- Rust's integer parsers accept one leading `+` sign. -/
def stripPlus : List Char → List Char
  | [] => []
  | c :: rest => if c = '+' then rest else c :: rest

/-- Embeds Rust `str::parse::<usize>`: optional `+`, digits, overflow
rejected beyond the 64-bit machine word. -/
def parseUsize? (s : List Char) : Option Nat :=
  (digitsOnly? (stripPlus s)).bind fun n => if n < 2 ^ 64 then some n else none

/-- Embeds Rust `str::parse::<isize>`: optional sign, digits, 64-bit
signed range. -/
def parseIsize? (s : List Char) : Option Int :=
  match s with
  | [] => none
  | c :: rest =>
    if c = '+' then
      (digitsOnly? rest).bind fun n => if n ≤ 2 ^ 63 - 1 then some (n : Int) else none
    else if c = '-' then
      (digitsOnly? rest).bind fun n => if n ≤ 2 ^ 63 then some (-(n : Int)) else none
    else
      (digitsOnly? (c :: rest)).bind fun n => if n ≤ 2 ^ 63 - 1 then some (n : Int) else none

/-- Worker for `natDecimal`; `fuel ≥ n` suffices. -/
def natDecimalGo : Nat → Nat → List Char → List Char
  | 0, _, acc => acc
  | fuel + 1, n, acc =>
    if n = 0 then acc
    else natDecimalGo fuel (n / 10) (Nat.digitChar (n % 10) :: acc)

/-- Decimal rendering of a natural number, as Rust's `Display` for
`usize` prints it inside `write!`. -/
def natDecimal (n : Nat) : List Char :=
  if n = 0 then ['0'] else natDecimalGo n n []

/-- The color value of src/main.rs: either a precomputed ANSI escape
string or the size-conditional marker (feature `size-color`). -/
inductive Color where
  | Ansi (ansi : List Char)
  | Size
  deriving DecidableEq

/-- The parse errors of src/main.rs relevant to the core (the `Anyhow`
and `Unknown` variants are never produced by the parsers). -/
inductive ParseError where
  | UnknownColor (s : List Char)
  | MissingColonField
  | IntParseError
  | AnsiFmtError
  deriving DecidableEq

/-- Embeds `impl Display for Color`: `Ansi` writes the stored text
verbatim, `Size` fails (`fmt::Error`). -/
def Color.render? : Color → Option (List Char)
  | Color.Ansi ansi => some ansi
  | Color.Size => none

/-- Embeds `Color::from_str` of src/main.rs.  The buffer starts with
`"\x1B[3"`, the matched arm appends its body, and a final `"m"` closes
the sequence.  Under the `fixed(`/`rgb(` guards the `strip` calls are
`drop`/`dropLast`, and the `splitn(3, ',')` of the rgb arm (guarded by
an exact count of two commas) is the two-fold split at the commas. -/
def Color.fromStr (input : List Char) : Except ParseError Color :=
  let pre := "\x1B[3".toList
  let mk : List Char → Except ParseError Color :=
    fun body => Except.ok (Color.Ansi (pre ++ body ++ "m".toList))
  if input = "default".toList then mk "9".toList
  else if input = "black".toList then mk "0".toList
  else if input = "red".toList then mk "1".toList
  else if input = "green".toList then mk "2".toList
  else if input = "yellow".toList then mk "3".toList
  else if input = "blue".toList then mk "4".toList
  else if input = "magenta".toList then mk "5".toList
  else if input = "cyan".toList then mk "6".toList
  else if input = "white".toList then mk "7".toList
  else if leadsWith "fixed(".toList input ∧ input.getLast? = some ')' then
    match parseUsize? ((input.drop "fixed(".toList.length).dropLast) with
    | none => Except.error ParseError.IntParseError
    | some num => mk ("8;5;".toList ++ natDecimal num)
  else if leadsWith "rgb(".toList input ∧ input.count ',' = 2 ∧ input.getLast? = some ')' then
    let in_par := (input.drop "rgb(".toList.length).dropLast
    let red := in_par.takeWhile (fun c => c != ',')
    let rest := (in_par.dropWhile (fun c => c != ',')).tail
    let green := rest.takeWhile (fun c => c != ',')
    let blue := (rest.dropWhile (fun c => c != ',')).tail
    match parseUsize? red, parseUsize? green, parseUsize? blue with
    | some r, some g, some b =>
      mk ("8;2;".toList ++ natDecimal r ++ ";".toList ++ natDecimal g ++ ";".toList ++ natDecimal b)
    | _, _, _ => Except.error ParseError.IntParseError
  else if input = "size".toList then Except.ok Color.Size
  else Except.error (ParseError.UnknownColor input)

/-- The `FieldColor` binding of src/main.rs: a signed field index and a
color. -/
structure FieldColor where
  field : Int
  color : Color
  deriving DecidableEq

/-- Embeds `FieldColor::from_str`: split at the first `:`; no colon is
`MissingColonField`; the left half parses as `isize`, the right half as
a color. -/
def FieldColor.fromStr (input : List Char) : Except ParseError FieldColor :=
  match splitOnce? input [':'] with
  | none => Except.error ParseError.MissingColonField
  | some (field, color) =>
    match parseIsize? field with
    | none => Except.error ParseError.IntParseError
    | some n =>
      match Color.fromStr color with
      | Except.error e => Except.error e
      | Except.ok c => Except.ok (FieldColor.mk n c)

/-- The parsed command-line configuration (`Options` of src/main.rs);
sizes are byte counts. -/
structure Options where
  fields : List FieldColor
  delimeter : List Char
  skip : Option (List Char)
  yellow_size : Nat
  red_size : Nat
  deriving DecidableEq

/-- `ByteSize::mb` of the bytesize crate: SI megabytes. -/
def byteSizeMb (n : Nat) : Nat := n * 1000000

/-- `Color::from_str("default")?` computed at startup in `main`; the
error branch is dead (the parse succeeds, see `default_color_eq`). -/
def default_color : Color :=
  match Color.fromStr "default".toList with
  | Except.ok c => c
  | Except.error _ => Color.Ansi []

/-- `Color::from_str("green")?` computed at startup in `main`. -/
def green_color : Color :=
  match Color.fromStr "green".toList with
  | Except.ok c => c
  | Except.error _ => Color.Ansi []

/-- `Color::from_str("yellow")?` computed at startup in `main`. -/
def yellow_color : Color :=
  match Color.fromStr "yellow".toList with
  | Except.ok c => c
  | Except.error _ => Color.Ansi []

/-- `Color::from_str("red")?` computed at startup in `main`. -/
def red_color : Color :=
  match Color.fromStr "red".toList with
  | Except.ok c => c
  | Except.error _ => Color.Ansi []

/-- The threshold comparison of `main` (src/main.rs lines 200-206):
strictly greater than red, else strictly greater than yellow, else
green. -/
def resolveSizeColor (red_size yellow_size size : Nat) : Color :=
  if size > red_size then red_color
  else if size > yellow_size then yellow_color
  else green_color

/-- Modelled from the spec: the size text is parsed by the external
bytesize crate (`text.trim().parse::<ByteSize>()`), whose source is not
part of this repository; per the spec it must at minimum accept a bare
integer byte count, which is what is modelled. -/
def parseByteSize? (s : List Char) : Option Nat := parseUsize? s

/-- The per-line errors of `main`'s loop. -/
inductive RunError where
  | skipNotFound
  | sizeParseError
  | fmtError
  deriving DecidableEq

/-- `Display` rendering routed into the output, failing on the `Size`
variant as `write!` would. -/
def renderE (c : Color) : Except RunError (List Char) :=
  match Color.render? c with
  | some s => Except.ok s
  | none => Except.error RunError.fmtError

/-- The binding lookup of `main` (line 192):
`fields.iter().find(|fc| fc.field >= 0 && fc.field as usize == i)`.
The cast to `usize` is `Int.toNat`, evaluated only under the
non-negativity guard. -/
def bindingFor (fields : List FieldColor) (i : Nat) : Option FieldColor :=
  fields.find? fun fc => decide (0 ≤ fc.field ∧ fc.field.toNat = i)

/-- The characters written for the field at position `i` (loop body of
`main`, lines 192-212). -/
def fieldOutput (opts : Options) (i : Nat) (text : List Char) : Except RunError (List Char) :=
  match bindingFor opts.fields i with
  | some fc =>
    match fc.color with
    | Color.Ansi ansi =>
      match renderE default_color with
      | Except.error e => Except.error e
      | Except.ok d => Except.ok (ansi ++ text ++ d)
    | Color.Size =>
      match parseByteSize? (trimChars text) with
      | none => Except.error RunError.sizeParseError
      | some size =>
        match renderE (resolveSizeColor opts.red_size opts.yellow_size size) with
        | Except.error e => Except.error e
        | Except.ok c =>
          match renderE default_color with
          | Except.error e => Except.error e
          | Except.ok d => Except.ok (c ++ text ++ d)
  | none => Except.ok text

/-- The characters written for a list of consecutive fields starting at
position `i` (the `for (i, text) in split.iter().enumerate()` loop). -/
def colorFields (opts : Options) : List (List Char) → Nat → Except RunError (List Char)
  | [], _ => Except.ok []
  | text :: rest, i =>
    match fieldOutput opts i text with
    | Except.error e => Except.error e
    | Except.ok out =>
      match colorFields opts rest (i + 1) with
      | Except.error e => Except.error e
      | Except.ok outs => Except.ok (out ++ outs)

/-- One iteration of `main`'s loop (lines 179-213): the skip phase, the
inclusive split, and the coloring loop; the result is everything written
to stdout for this line. -/
def processLine (opts : Options) (buf : List Char) : Except RunError (List Char) :=
  match opts.skip with
  | some pat =>
    match splitOnce? buf pat with
    | none => Except.error RunError.skipNotFound
    | some (left, right) =>
      match colorFields opts (splitInclusive opts.delimeter right) 0 with
      | Except.error e => Except.error e
      | Except.ok rest => Except.ok (left ++ pat ++ rest)
  | none => colorFields opts (splitInclusive opts.delimeter buf) 0

/-- The whole run on a finite input stream: lines are processed in
order and the first error aborts the run. -/
def processLines (opts : Options) : List (List Char) → Except RunError (List Char)
  | [] => Except.ok []
  | l :: ls =>
    match processLine opts l with
    | Except.error e => Except.error e
    | Except.ok out =>
      match processLines opts ls with
      | Except.error e => Except.error e
      | Except.ok outs => Except.ok (out ++ outs)

/-- The concrete default-color reset sequence `ESC [ 3 9 m`. -/
def defaultReset : List Char := "\x1B[39m".toList

deriving instance DecidableEq for Except

theorem leadsWith_iff (p s : List Char) : leadsWith p s = true ↔ ∃ t, s = p ++ t := by
  induction p generalizing s with
  | nil =>
    simp only [leadsWith, List.nil_append, true_iff]
    exact ⟨s, rfl⟩
  | cons a as ih =>
    cases s with
    | nil =>
      simp [leadsWith]
    | cons b bs =>
      simp only [leadsWith, Bool.and_eq_true, beq_iff_eq, List.cons_append]
      constructor
      · rintro ⟨rfl, h⟩
        obtain ⟨t, rfl⟩ := (ih bs).1 h
        exact ⟨t, rfl⟩
      · rintro ⟨t, ht⟩
        injection ht with h1 h2
        exact ⟨h1.symm, (ih bs).2 ⟨t, h2⟩⟩

theorem leadsWith_append (p t : List Char) : leadsWith p (p ++ t) = true :=
  (leadsWith_iff p (p ++ t)).2 ⟨t, rfl⟩

theorem leadsWith_nil_iff (p : List Char) : leadsWith p [] = true ↔ p = [] := by
  cases p <;> simp [leadsWith]

theorem subIdx_eq_some_iff (pat s : List Char) (i : Nat) :
    subIdx? pat s = some i ↔
      leadsWith pat (s.drop i) = true ∧ ∀ j, j < i → leadsWith pat (s.drop j) = false := by
  induction s generalizing i with
  | nil =>
    simp only [subIdx?, List.drop_nil]
    by_cases hp : pat = []
    · rw [if_pos hp]
      subst hp
      simp only [leadsWith, Option.some.injEq, true_and]
      constructor
      · rintro rfl
        exact fun j hj => absurd hj (Nat.not_lt_zero j)
      · intro h
        rcases Nat.eq_zero_or_pos i with rfl | hpos
        · rfl
        · exact absurd (h 0 hpos) (by simp)
    · rw [if_neg hp]
      constructor
      · intro h
        exact absurd h (by simp)
      · rintro ⟨h, -⟩
        exact absurd ((leadsWith_nil_iff pat).1 h) hp
  | cons c rest ih =>
    by_cases hl : leadsWith pat (c :: rest) = true
    · simp only [subIdx?, if_pos hl, Option.some.injEq]
      constructor
      · rintro rfl
        exact ⟨hl, fun j hj => absurd hj (Nat.not_lt_zero j)⟩
      · rintro ⟨-, hall⟩
        rcases Nat.eq_zero_or_pos i with rfl | hpos
        · rfl
        · have h0 := hall 0 hpos
          rw [List.drop_zero, hl] at h0
          exact absurd h0 (by simp)
    · have hl' : leadsWith pat (c :: rest) = false := by
        simpa using hl
      simp only [subIdx?, if_neg hl, Option.map_eq_some']
      cases i with
      | zero =>
        simp only [List.drop_zero]
        constructor
        · rintro ⟨j, -, hj⟩
          exact absurd hj (Nat.succ_ne_zero j)
        · rintro ⟨h, -⟩
          exact absurd h hl
      | succ n =>
        constructor
        · rintro ⟨m, hm, hmn⟩
          rw [Nat.succ_injective hmn] at hm
          obtain ⟨h1, h2⟩ := (ih n).1 hm
          refine ⟨by rw [List.drop_succ_cons]; exact h1, fun j hj => ?_⟩
          cases j with
          | zero => simpa using hl'
          | succ j =>
            rw [List.drop_succ_cons]
            exact h2 j (Nat.lt_of_succ_lt_succ hj)
        · rintro ⟨h1, h2⟩
          rw [List.drop_succ_cons] at h1
          refine ⟨n, (ih n).2 ⟨h1, fun j hj => ?_⟩, rfl⟩
          have := h2 (j + 1) (Nat.succ_lt_succ hj)
          rwa [List.drop_succ_cons] at this

theorem subIdx_eq_none_iff (pat s : List Char) :
    subIdx? pat s = none ↔ ∀ j, leadsWith pat (s.drop j) = false := by
  induction s with
  | nil =>
    simp only [subIdx?, List.drop_nil]
    by_cases hp : pat = []
    · rw [if_pos hp]
      subst hp
      simp [leadsWith]
    · rw [if_neg hp]
      simp only [true_iff]
      intro j
      cases hq : leadsWith pat [] with
      | false => rfl
      | true => exact absurd ((leadsWith_nil_iff pat).1 hq) hp
  | cons c rest ih =>
    by_cases hl : leadsWith pat (c :: rest) = true
    · simp only [subIdx?, if_pos hl]
      constructor
      · intro h
        exact absurd h (by simp)
      · intro hall
        have h0 := hall 0
        rw [List.drop_zero, hl] at h0
        exact absurd h0 (by simp)
    · have hl' : leadsWith pat (c :: rest) = false := by
        simpa using hl
      simp only [subIdx?, if_neg hl, Option.map_eq_none', ih]
      constructor
      · intro h j
        cases j with
        | zero => simpa using hl'
        | succ j =>
          rw [List.drop_succ_cons]
          exact h j
      · intro h j
        have := h (j + 1)
        rwa [List.drop_succ_cons] at this

theorem occurs_iff (pat s : List Char) :
    (∃ j, leadsWith pat (s.drop j) = true) ↔ ∃ l r, s = l ++ pat ++ r := by
  constructor
  · rintro ⟨j, hj⟩
    obtain ⟨t, ht⟩ := (leadsWith_iff _ _).1 hj
    refine ⟨s.take j, t, ?_⟩
    rw [List.append_assoc, ← ht, List.take_append_drop]
  · rintro ⟨l, r, rfl⟩
    refine ⟨l.length, ?_⟩
    rw [List.append_assoc, List.drop_left' rfl]
    exact leadsWith_append pat r

theorem take_leadsWith (pat s : List Char) (i : Nat)
    (h : leadsWith pat (s.drop i) = true) :
    s.take (i + pat.length) = s.take i ++ pat := by
  obtain ⟨t, ht⟩ := (leadsWith_iff _ _).1 h
  by_cases hi : i ≤ s.length
  · have hlen : (s.take i).length = i := by
      rw [List.length_take]
      omega
    conv_lhs => rw [← List.take_append_drop i s]
    rw [ht, List.take_append_eq_append_take, List.take_of_length_le (by omega),
      hlen]
    have : i + pat.length - i = pat.length := by omega
    rw [this, List.take_left]
  · have hdrop : s.drop i = [] := by
      apply List.drop_eq_nil_of_le
      omega
    rw [hdrop] at ht
    have hpat : pat = [] := by
      cases pat with
      | nil => rfl
      | cons x xs => simp at ht
    subst hpat
    simp

theorem splitInclusiveGo_flatten (pat : List Char) :
    ∀ fuel s, s.length ≤ fuel → (splitInclusiveGo pat fuel s).flatten = s := by
  intro fuel
  induction fuel with
  | zero =>
    intro s hs
    have hnil : s = [] := List.eq_nil_of_length_eq_zero (Nat.le_zero.1 hs)
    subst hnil
    rfl
  | succ fuel ih =>
    intro s hs
    cases s with
    | nil => rfl
    | cons c rest =>
      cases h : subIdx? pat (c :: rest) with
      | none => simp [splitInclusiveGo, h]
      | some i =>
        simp only [splitInclusiveGo, h]
        by_cases hp : pat = []
        · rw [if_pos hp]
          simp
        · rw [if_neg hp, List.flatten_cons]
          have hplen : 0 < pat.length := List.length_pos.2 hp
          have hlen : ((c :: rest).drop (i + pat.length)).length ≤ fuel := by
            rw [List.length_drop]
            simp only [List.length_cons] at hs ⊢
            omega
          rw [ih _ hlen, List.take_append_drop]

theorem splitInclusive_flatten (pat s : List Char) :
    (splitInclusive pat s).flatten = s :=
  splitInclusiveGo_flatten pat s.length s (Nat.le_refl _)

theorem splitInclusiveGo_ne_nil (pat : List Char) (fuel : Nat) (s : List Char)
    (hs : s ≠ []) : splitInclusiveGo pat fuel s ≠ [] := by
  cases s with
  | nil => exact absurd rfl hs
  | cons c rest =>
    cases fuel with
    | zero => simp [splitInclusiveGo]
    | succ fuel =>
      cases h : subIdx? pat (c :: rest) with
      | none => simp [splitInclusiveGo, h]
      | some i =>
        simp only [splitInclusiveGo, h]
        by_cases hp : pat = []
        · rw [if_pos hp]
          simp
        · rw [if_neg hp]
          simp

theorem splitInclusiveGo_dropLast_suffix (pat : List Char) :
    ∀ fuel s, s.length ≤ fuel →
      ∀ seg ∈ (splitInclusiveGo pat fuel s).dropLast, pat <:+ seg := by
  intro fuel
  induction fuel with
  | zero =>
    intro s hs seg hseg
    have hnil : s = [] := List.eq_nil_of_length_eq_zero (Nat.le_zero.1 hs)
    subst hnil
    simp [splitInclusiveGo] at hseg
  | succ fuel ih =>
    intro s hs seg hseg
    cases s with
    | nil => simp [splitInclusiveGo] at hseg
    | cons c rest =>
      cases h : subIdx? pat (c :: rest) with
      | none =>
        simp [splitInclusiveGo, h] at hseg
      | some i =>
        simp only [splitInclusiveGo, h] at hseg
        by_cases hp : pat = []
        · rw [if_pos hp] at hseg
          simp at hseg
        · rw [if_neg hp] at hseg
          have hplen : 0 < pat.length := List.length_pos.2 hp
          have hlen : ((c :: rest).drop (i + pat.length)).length ≤ fuel := by
            rw [List.length_drop]
            simp only [List.length_cons] at hs ⊢
            omega
          by_cases hnil : (c :: rest).drop (i + pat.length) = []
          · rw [hnil] at hseg
            simp [splitInclusiveGo] at hseg
          · have hne := splitInclusiveGo_ne_nil pat fuel _ hnil
            cases hL : splitInclusiveGo pat fuel ((c :: rest).drop (i + pat.length)) with
            | nil => exact absurd hL hne
            | cons b bs =>
              rw [hL] at hseg
              rw [List.dropLast_cons₂] at hseg
              rcases List.mem_cons.1 hseg with rfl | hseg'
              · have hlead : leadsWith pat ((c :: rest).drop i) = true :=
                  ((subIdx_eq_some_iff pat (c :: rest) i).1 h).1
                rw [take_leadsWith pat (c :: rest) i hlead]
                exact ⟨(c :: rest).take i, rfl⟩
              · exact ih _ hlen seg (hL ▸ hseg')

theorem flatten_get_slice (L : List (List Char)) :
    ∀ k (hk : k < L.length),
      L.get ⟨k, hk⟩ =
        (L.flatten.drop ((L.take k).flatten.length)).take (L.get ⟨k, hk⟩).length := by
  induction L with
  | nil =>
    intro k hk
    exact absurd hk (by simp)
  | cons a rest ih =>
    intro k hk
    cases k with
    | zero =>
      simp only [List.get, List.take_zero, List.flatten_nil, List.length_nil,
        List.drop_zero, List.flatten_cons]
      rw [List.take_left]
    | succ k =>
      have hk' : k < rest.length := Nat.lt_of_succ_lt_succ hk
      simp only [List.get, List.flatten_cons, List.take_succ_cons, List.length_append]
      rw [← List.drop_drop, List.drop_left]
      exact ih k hk'

theorem renderE_default : renderE default_color = Except.ok defaultReset := rfl

theorem colorFields_unmatched (opts : Options) :
    ∀ (fields : List (List Char)) (start : Nat),
      (∀ k, k < fields.length → bindingFor opts.fields (start + k) = none) →
      colorFields opts fields start = Except.ok fields.flatten := by
  intro fields
  induction fields with
  | nil =>
    intro start h
    rfl
  | cons text rest ih =>
    intro start h
    have h0 : bindingFor opts.fields start = none := by
      have := h 0 (by simp)
      simpa using this
    have hrest : colorFields opts rest (start + 1) = Except.ok rest.flatten := by
      apply ih
      intro k hk
      have hidx : start + 1 + k = start + (k + 1) := by omega
      rw [hidx]
      exact h (k + 1) (by simpa using Nat.succ_lt_succ hk)
    simp only [colorFields, fieldOutput, h0, hrest, List.flatten_cons]

/-- Claim C1: with no skip pattern configured and no binding whose
non-negative field index equals a split position of the line, the
characters written for the line are exactly the input line, terminator
included. -/
theorem round_trip_unmatched (opts : Options) (buf : List Char)
    (hdelim : opts.delimeter ≠ [])
    (hskip : opts.skip = none)
    (hmatch : ∀ fc ∈ opts.fields, ∀ i, i < (splitInclusive opts.delimeter buf).length →
      ¬(0 ≤ fc.field ∧ fc.field.toNat = i)) :
    processLine opts buf = Except.ok buf := by
  have hnone : ∀ k, k < (splitInclusive opts.delimeter buf).length →
      bindingFor opts.fields (0 + k) = none := by
    intro k hk
    rw [Nat.zero_add, bindingFor, List.find?_eq_none]
    intro fc hfc
    simpa using hmatch fc hfc k hk
  simp only [processLine, hskip]
  rw [colorFields_unmatched opts _ 0 hnone, splitInclusive_flatten]

/-- Claim C1 witness: a concrete line, a space delimiter and bindings at
position 5 and at the negative index -1 pass through unchanged. -/
theorem round_trip_unmatched_witness :
    processLine
      ⟨[⟨5, red_color⟩, ⟨-1, green_color⟩], " ".toList, none, byteSizeMb 20, byteSizeMb 100⟩
      ("ab cd\n".toList) = Except.ok ("ab cd\n".toList) :=
  round_trip_unmatched _ _ (by decide) rfl (by decide)

/-- Claim C2: for a non-empty delimiter, concatenating the segments of
the inclusive split reproduces the post-skip line exactly, and every
segment except possibly the last ends with the delimiter. -/
theorem split_reconstruction (pat s : List Char) (hpat : pat ≠ []) :
    (splitInclusive pat s).flatten = s ∧
      ∀ seg ∈ (splitInclusive pat s).dropLast, pat <:+ seg :=
  ⟨splitInclusive_flatten pat s,
   splitInclusiveGo_dropLast_suffix pat s.length s (Nat.le_refl _)⟩

/-- Claim C2 witness: splitting `"a b"` at `" "`. -/
theorem split_reconstruction_witness :
    (splitInclusive (" ".toList) ("a b".toList)).flatten = "a b".toList ∧
      ∀ seg ∈ (splitInclusive (" ".toList) ("a b".toList)).dropLast,
        (" ".toList) <:+ seg :=
  split_reconstruction (" ".toList) ("a b".toList) (by decide)

/-- Claim C3: the size classifier compares strictly: the result is the
red color iff `size > red`, else the yellow color iff `size > yellow`,
else the green color; with the default thresholds 100 MB and 20 MB,
exactly 100 MB resolves yellow, one byte more resolves red, and zero
resolves green. -/
theorem size_classifier_strict (size red yellow : Nat) :
    (resolveSizeColor red yellow size = red_color ↔ size > red) ∧
    (¬size > red → (resolveSizeColor red yellow size = yellow_color ↔ size > yellow)) ∧
    (¬size > red → ¬size > yellow → resolveSizeColor red yellow size = green_color) ∧
    resolveSizeColor (byteSizeMb 100) (byteSizeMb 20) (byteSizeMb 100) = yellow_color ∧
    resolveSizeColor (byteSizeMb 100) (byteSizeMb 20) (byteSizeMb 100 + 1) = red_color ∧
    resolveSizeColor (byteSizeMb 100) (byteSizeMb 20) 0 = green_color := by
  have hry : red_color ≠ yellow_color := by decide
  have hrg : red_color ≠ green_color := by decide
  refine ⟨?_, ?_, ?_, by decide, by decide, by decide⟩
  · rw [resolveSizeColor]
    by_cases h : size > red
    · simp [h]
    · rw [if_neg h]
      constructor
      · intro he
        by_cases h2 : size > yellow
        · rw [if_pos h2] at he
          exact absurd he.symm hry
        · rw [if_neg h2] at he
          exact absurd he.symm hrg
      · intro hgt
        exact absurd hgt h
  · intro h
    rw [resolveSizeColor, if_neg h]
    have hyg : yellow_color ≠ green_color := by decide
    by_cases h2 : size > yellow
    · simp [h2]
    · rw [if_neg h2]
      constructor
      · intro he
        exact absurd he.symm hyg
      · intro hgt
        exact absurd hgt h2
  · intro h h2
    rw [resolveSizeColor, if_neg h, if_neg h2]

/-- Claim C3 witness: with red threshold 5 and yellow threshold 3, a
size of 4 resolves to the yellow color. -/
theorem size_classifier_strict_witness :
    resolveSizeColor 5 3 4 = yellow_color :=
  ((size_classifier_strict 4 5 3).2.1 (by decide)).2 (by decide)

/-- Claim C5: a field matched by an `Ansi` binding is written as the
binding's escape string, then the field text, then the default reset;
and every split segment is byte-identical to the corresponding
contiguous slice of the line it was split from. -/
theorem ansi_wrap_invariant (opts : Options) (i : Nat) (text : List Char)
    (fc : FieldColor) (ansi : List Char)
    (hfind : bindingFor opts.fields i = some fc)
    (hansi : fc.color = Color.Ansi ansi) :
    fieldOutput opts i text = Except.ok (ansi ++ text ++ defaultReset) ∧
    ∀ (pat s : List Char) (k : Nat) (hk : k < (splitInclusive pat s).length),
      (splitInclusive pat s).get ⟨k, hk⟩ =
        (s.drop (((splitInclusive pat s).take k).flatten.length)).take
          ((splitInclusive pat s).get ⟨k, hk⟩).length := by
  constructor
  · simp only [fieldOutput, hfind, hansi, renderE_default]
  · intro pat s k hk
    have hs := flatten_get_slice (splitInclusive pat s) k hk
    rwa [splitInclusive_flatten] at hs

/-- Claim C5 witness: position 0 bound to red wraps the field text. -/
theorem ansi_wrap_invariant_witness :
    fieldOutput ⟨[⟨0, red_color⟩], " ".toList, none, byteSizeMb 20, byteSizeMb 100⟩ 0
      ("x ".toList) =
      Except.ok ("\x1B[31m".toList ++ "x ".toList ++ defaultReset) :=
  (ansi_wrap_invariant _ 0 ("x ".toList) ⟨0, red_color⟩ ("\x1B[31m".toList)
    (by decide) (by decide)).1

/-- Claim C9: rendering an `Ansi` color writes exactly the stored escape
string; rendering the `Size` marker always fails. -/
theorem render_ansi_verbatim_size_fails :
    (∀ s, Color.render? (Color.Ansi s) = some s) ∧ Color.render? Color.Size = none :=
  ⟨fun _ => rfl, rfl⟩

/-- Claim C4: with a skip pattern configured, a line not containing the
pattern as a literal substring fails with the skip-not-found error (and
aborts a whole run); a line containing it has the prefix up to and
including the first occurrence written unmodified, with field splitting
and coloring applied only to the remainder after that occurrence. -/
theorem skip_phase (opts : Options) (pat buf : List Char)
    (hskip : opts.skip = some pat) :
    ((¬∃ l r, buf = l ++ pat ++ r) →
      processLine opts buf = Except.error RunError.skipNotFound) ∧
    (∀ i, subIdx? pat buf = some i →
      buf.take (i + pat.length) = buf.take i ++ pat ∧
      (∀ j, j < i → ¬∃ r, buf.drop j = pat ++ r) ∧
      processLine opts buf =
        match colorFields opts (splitInclusive opts.delimeter (buf.drop (i + pat.length))) 0 with
        | Except.error e => Except.error e
        | Except.ok rest => Except.ok (buf.take (i + pat.length) ++ rest)) ∧
    (∀ ls, (¬∃ l r, buf = l ++ pat ++ r) →
      processLines opts (buf :: ls) = Except.error RunError.skipNotFound) := by
  have hfail : (¬∃ l r, buf = l ++ pat ++ r) →
      processLine opts buf = Except.error RunError.skipNotFound := by
    intro hno
    have hnone : subIdx? pat buf = none := by
      rw [subIdx_eq_none_iff]
      intro j
      cases hq : leadsWith pat (buf.drop j) with
      | false => rfl
      | true => exact absurd ((occurs_iff pat buf).1 ⟨j, hq⟩) hno
    simp only [processLine, hskip, splitOnce?, hnone, Option.map_none']
  refine ⟨hfail, ?_, ?_⟩
  · intro i h
    have hchar := (subIdx_eq_some_iff pat buf i).1 h
    have htake := take_leadsWith pat buf i hchar.1
    refine ⟨htake, ?_, ?_⟩
    · intro j hj hex
      obtain ⟨r, hr⟩ := hex
      have hfalse := hchar.2 j hj
      have htrue : leadsWith pat (buf.drop j) = true := by
        rw [hr]
        exact leadsWith_append pat r
      rw [hfalse] at htrue
      exact absurd htrue (by simp)
    · have hsome : splitOnce? buf pat = some (buf.take i, buf.drop (i + pat.length)) := by
        rw [splitOnce?, h]
        rfl
      simp only [processLine, hskip, hsome]
      cases hc : colorFields opts (splitInclusive opts.delimeter (buf.drop (i + pat.length))) 0 with
      | error e => rfl
      | ok rest =>
        rw [htake]
  · intro ls hno
    simp only [processLines, hfail hno]

/-- Claim C4 witness: skip pattern `": "` on the line
`"cpu family  : 6\n"` (first occurrence at index 12). -/
theorem skip_phase_witness :
    ("cpu family  : 6\n".toList).take (12 + (": ".toList).length) =
        ("cpu family  : 6\n".toList).take 12 ++ ": ".toList ∧
      (∀ j, j < 12 → ¬∃ r, ("cpu family  : 6\n".toList).drop j = ": ".toList ++ r) ∧
      processLine
          ⟨[⟨0, red_color⟩], " ".toList, some (": ".toList), byteSizeMb 20, byteSizeMb 100⟩
          ("cpu family  : 6\n".toList) =
        match
          colorFields
            ⟨[⟨0, red_color⟩], " ".toList, some (": ".toList), byteSizeMb 20, byteSizeMb 100⟩
            (splitInclusive (" ".toList) (("cpu family  : 6\n".toList).drop
              (12 + (": ".toList).length))) 0
        with
        | Except.error e => Except.error e
        | Except.ok rest =>
          Except.ok (("cpu family  : 6\n".toList).take (12 + (": ".toList).length) ++ rest) :=
  (skip_phase
    ⟨[⟨0, red_color⟩], " ".toList, some (": ".toList), byteSizeMb 20, byteSizeMb 100⟩
    (": ".toList) ("cpu family  : 6\n".toList) rfl).2.1 12 (by decide)

theorem find?_split {α : Type} (p : α → Bool) :
    ∀ (l : List α) (a : α), l.find? p = some a →
      ∃ l₁ l₂, l = l₁ ++ a :: l₂ ∧ ∀ x ∈ l₁, p x = false := by
  intro l
  induction l with
  | nil =>
    intro a h
    exact absurd h (by simp)
  | cons b rest ih =>
    intro a h
    by_cases hb : p b = true
    · rw [List.find?_cons_of_pos rest hb] at h
      have hba : b = a := by injection h
      subst hba
      exact ⟨[], rest, rfl, by simp⟩
    · rw [List.find?_cons_of_neg rest hb] at h
      obtain ⟨l₁, l₂, rfl, hall⟩ := ih a h
      refine ⟨b :: l₁, l₂, rfl, ?_⟩
      intro x hx
      rcases List.mem_cons.1 hx with rfl | hx'
      · simpa using hb
      · exact hall x hx'

/-- Claim C6: the binding applied to a field position is the first
binding in configuration order with a non-negative field index equal to
that position; negative-index bindings (such as the one parsed from
`"-1:red"`, accepted at parse time) never match, and bindings after the
first match are never chosen. -/
theorem first_binding_wins (fields : List FieldColor) (i : Nat) :
    (∀ fc, bindingFor fields i = some fc →
      (0 ≤ fc.field ∧ fc.field.toNat = i) ∧
      ∃ l₁ l₂, fields = l₁ ++ fc :: l₂ ∧
        ∀ fc' ∈ l₁, ¬(0 ≤ fc'.field ∧ fc'.field.toNat = i)) ∧
    (∀ l₁ fc l₂, fields = l₁ ++ fc :: l₂ →
      (0 ≤ fc.field ∧ fc.field.toNat = i) →
      (∀ fc' ∈ l₁, ¬(0 ≤ fc'.field ∧ fc'.field.toNat = i)) →
      bindingFor fields i = some fc) ∧
    (∀ fc : FieldColor, fc.field < 0 → bindingFor fields i ≠ some fc) ∧
    FieldColor.fromStr ("-1:red".toList) = Except.ok ⟨-1, red_color⟩ := by
  have hmain : ∀ fc, bindingFor fields i = some fc →
      (0 ≤ fc.field ∧ fc.field.toNat = i) ∧
      ∃ l₁ l₂, fields = l₁ ++ fc :: l₂ ∧
        ∀ fc' ∈ l₁, ¬(0 ≤ fc'.field ∧ fc'.field.toNat = i) := by
    intro fc h
    have hp := List.find?_some h
    have hp' : 0 ≤ fc.field ∧ fc.field.toNat = i := of_decide_eq_true hp
    obtain ⟨l₁, l₂, rfl, hall⟩ := find?_split _ fields fc h
    refine ⟨hp', l₁, l₂, rfl, ?_⟩
    intro fc' hfc'
    have := hall fc' hfc'
    simpa using this
  refine ⟨hmain, ?_, ?_, by decide⟩
  · rintro l₁ fc l₂ rfl hfc hall
    rw [bindingFor, List.find?_append]
    have hl₁ : l₁.find? (fun fc => decide (0 ≤ fc.field ∧ fc.field.toNat = i)) = none := by
      rw [List.find?_eq_none]
      intro x hx
      simpa using hall x hx
    rw [hl₁]
    have hpfc : (fun fc : FieldColor => decide (0 ≤ fc.field ∧ fc.field.toNat = i)) fc = true :=
      decide_eq_true hfc
    rw [List.find?_cons_of_pos l₂ hpfc]
    rfl
  · intro fc hneg h
    have := (hmain fc h).1
    omega

/-- Claim C6 witness: with bindings `-1:red`, `0:red`, `0:green` in that
order, position 0 gets the first non-negative match `0:red`. -/
theorem first_binding_wins_witness :
    bindingFor [⟨-1, red_color⟩, ⟨0, red_color⟩, ⟨0, green_color⟩] 0 =
      some ⟨0, red_color⟩ :=
  (first_binding_wins [⟨-1, red_color⟩, ⟨0, red_color⟩, ⟨0, green_color⟩] 0).2.1
    [⟨-1, red_color⟩] ⟨0, red_color⟩ [⟨0, green_color⟩] rfl (by decide) (by decide)

/-- Claim C7 (counterexample): `fixed(1,2)` has malformed `fixed(...)`
syntax (wrong argument count inside the parentheses), yet parsing fails
with `IntParseError` and not with `UnknownColor` carrying the input. -/
theorem color_malformed_cex :
    Color.fromStr ("fixed(1,2)".toList) = Except.error ParseError.IntParseError ∧
    Color.fromStr ("fixed(1,2)".toList) ≠
      Except.error (ParseError.UnknownColor ("fixed(1,2)".toList)) := by
  decide

/-- Claim C7 (amended): an input that is none of the literal color
keywords and satisfies neither the `fixed(` arm guard (starts with
`fixed(` and ends with `)`) nor the `rgb(` arm guard (starts with
`rgb(`, has exactly two commas and ends with `)`) falls through to
`UnknownColor` carrying that input; malformed text inside a
guard-passing wrapper instead fails in the integer sub-parse. -/
theorem color_fallthrough_unknown (input : List Char)
    (hkw : input ∉ ["default".toList, "black".toList, "red".toList, "green".toList,
      "yellow".toList, "blue".toList, "magenta".toList, "cyan".toList, "white".toList,
      "size".toList])
    (hfx : ¬(leadsWith "fixed(".toList input ∧ input.getLast? = some ')'))
    (hrgb : ¬(leadsWith "rgb(".toList input ∧ input.count ',' = 2 ∧
      input.getLast? = some ')')) :
    Color.fromStr input = Except.error (ParseError.UnknownColor input) := by
  have h1 : input ≠ "default".toList := fun h => hkw (by rw [h]; simp)
  have h2 : input ≠ "black".toList := fun h => hkw (by rw [h]; simp)
  have h3 : input ≠ "red".toList := fun h => hkw (by rw [h]; simp)
  have h4 : input ≠ "green".toList := fun h => hkw (by rw [h]; simp)
  have h5 : input ≠ "yellow".toList := fun h => hkw (by rw [h]; simp)
  have h6 : input ≠ "blue".toList := fun h => hkw (by rw [h]; simp)
  have h7 : input ≠ "magenta".toList := fun h => hkw (by rw [h]; simp)
  have h8 : input ≠ "cyan".toList := fun h => hkw (by rw [h]; simp)
  have h9 : input ≠ "white".toList := fun h => hkw (by rw [h]; simp)
  have h10 : input ≠ "size".toList := fun h => hkw (by rw [h]; simp)
  simp only [Color.fromStr]
  rw [if_neg h1, if_neg h2, if_neg h3, if_neg h4, if_neg h5, if_neg h6, if_neg h7,
    if_neg h8, if_neg h9, if_neg hfx, if_neg hrgb, if_neg h10]

/-- Claim C7 witness: `rgb(1,2,3` (missing closing parenthesis) fails
both guards and falls through to `UnknownColor`. -/
theorem color_fallthrough_unknown_witness :
    Color.fromStr ("rgb(1,2,3".toList) =
      Except.error (ParseError.UnknownColor ("rgb(1,2,3".toList)) :=
  color_fallthrough_unknown ("rgb(1,2,3".toList) (by decide) (by decide) (by decide)

/-- Claim C8: the field-binding parser splits at the first colon only
(colons in the color half are preserved and the whole color half is
passed to the color parser); inputs with no colon fail with
`MissingColonField`; the part before the colon is parsed as a signed
integer, failing with `IntParseError` when malformed. -/
theorem field_binding_first_colon (input : List Char) :
    ((¬ ':' ∈ input) →
      FieldColor.fromStr input = Except.error ParseError.MissingColonField) ∧
    (∀ l r, input = l ++ ':' :: r → (¬ ':' ∈ l) →
      FieldColor.fromStr input =
        match parseIsize? l with
        | none => Except.error ParseError.IntParseError
        | some n =>
          match Color.fromStr r with
          | Except.error e => Except.error e
          | Except.ok c => Except.ok (FieldColor.mk n c)) := by
  constructor
  · intro hmem
    have hnone : subIdx? [':'] input = none := by
      rw [subIdx_eq_none_iff]
      intro j
      cases hq : leadsWith [':'] (input.drop j) with
      | false => rfl
      | true =>
        obtain ⟨t, ht⟩ := (leadsWith_iff _ _).1 hq
        have hm : ':' ∈ input.drop j := by
          rw [ht]
          exact List.mem_cons_self ':' t
        exact absurd (List.mem_of_mem_drop hm) hmem
    simp only [FieldColor.fromStr, splitOnce?, hnone, Option.map_none']
  · rintro l r rfl hmem
    have hlen : subIdx? [':'] (l ++ ':' :: r) = some l.length := by
      rw [subIdx_eq_some_iff]
      constructor
      · rw [List.drop_left' rfl]
        simp [leadsWith]
      · intro j hj
        cases hq : leadsWith [':'] ((l ++ ':' :: r).drop j) with
        | false => rfl
        | true =>
          exfalso
          obtain ⟨t, ht⟩ := (leadsWith_iff _ _).1 hq
          rw [List.drop_append_eq_append_drop] at ht
          have hj' : j - l.length = 0 := by omega
          rw [hj', List.drop_zero] at ht
          cases hdl : l.drop j with
          | nil =>
            rw [List.drop_eq_nil_iff] at hdl
            omega
          | cons d ds =>
            rw [hdl, List.cons_append] at ht
            have hd : d = ':' := by
              injection ht with hd _
            have hdmem : d ∈ l := List.mem_of_mem_drop (by rw [hdl]; exact List.mem_cons_self d ds)
            rw [hd] at hdmem
            exact hmem hdmem
    have h2 : (l ++ ':' :: r).drop (l.length + 1) = r := by
      rw [← List.drop_drop, List.drop_left]
      rfl
    have hsplit : splitOnce? (l ++ ':' :: r) [':'] = some (l, r) := by
      rw [splitOnce?, hlen, Option.map_some']
      simp only [List.length_singleton]
      rw [List.take_left, h2]
    simp only [FieldColor.fromStr, hsplit]

/-- Claim C8 witness: `"1green"` fails with `MissingColonField`, and
`"1:red"` splits into field half `"1"` and color half `"red"`. -/
theorem field_binding_first_colon_witness :
    FieldColor.fromStr ("1green".toList) = Except.error ParseError.MissingColonField ∧
    FieldColor.fromStr ("1:red".toList) =
      match parseIsize? ("1".toList) with
      | none => Except.error ParseError.IntParseError
      | some n =>
        match Color.fromStr ("red".toList) with
        | Except.error e => Except.error e
        | Except.ok c => Except.ok (FieldColor.mk n c) :=
  ⟨(field_binding_first_colon ("1green".toList)).1 (by decide),
   (field_binding_first_colon ("1:red".toList)).2 ("1".toList) ("red".toList)
     (by decide) (by decide)⟩

theorem digitChar_facts : ∀ d, d < 10 → digitVal? (Nat.digitChar d) = some d ∧
    Nat.digitChar d ≠ ',' ∧ Nat.digitChar d ≠ '+' ∧ (Nat.digitChar d != ',') = true := by
  decide

/-- Accumulator-passing value of a decimal digit string, matching the
accumulation order of `parseDigits`. -/
def valCat (a n : Nat) : Nat :=
  if n = 0 then a else valCat a (n / 10) * 10 + n % 10
termination_by n
decreasing_by
  rename_i h
  exact Nat.div_lt_self (Nat.pos_of_ne_zero h) (by norm_num)

theorem valCat_self : ∀ n, valCat 0 n = n := by
  intro n
  induction n using Nat.strong_induction_on with
  | _ n ih =>
    rw [valCat]
    by_cases hn : n = 0
    · rw [if_pos hn, hn]
    · rw [if_neg hn]
      have hdiv : n / 10 < n := Nat.div_lt_self (Nat.pos_of_ne_zero hn) (by norm_num)
      rw [ih (n / 10) hdiv]
      omega

theorem parseDigits_natDecimalGo :
    ∀ fuel n acc a, n ≤ fuel →
      parseDigits a (natDecimalGo fuel n acc) = parseDigits (valCat a n) acc := by
  intro fuel
  induction fuel with
  | zero =>
    intro n acc a hn
    have h0 : n = 0 := Nat.le_zero.1 hn
    subst h0
    rw [natDecimalGo, valCat, if_pos rfl]
  | succ fuel ih =>
    intro n acc a hn
    by_cases h0 : n = 0
    · subst h0
      rw [natDecimalGo, if_pos rfl, valCat, if_pos rfl]
    · rw [natDecimalGo, if_neg h0]
      have hmod : n % 10 < 10 := Nat.mod_lt n (by norm_num)
      have hdiv : n / 10 ≤ fuel := by
        have := Nat.div_lt_self (Nat.pos_of_ne_zero h0) (show 1 < 10 by norm_num)
        omega
      rw [ih (n / 10) (Nat.digitChar (n % 10) :: acc) a hdiv]
      simp only [parseDigits, (digitChar_facts (n % 10) hmod).1]
      conv_rhs => rw [valCat, if_neg h0]

theorem natDecimalGo_mem :
    ∀ fuel n acc (c : Char), c ∈ natDecimalGo fuel n acc →
      c ∈ acc ∨ ∃ d, d < 10 ∧ c = Nat.digitChar d := by
  intro fuel
  induction fuel with
  | zero =>
    intro n acc c hc
    rw [natDecimalGo] at hc
    exact Or.inl hc
  | succ fuel ih =>
    intro n acc c hc
    rw [natDecimalGo] at hc
    by_cases h0 : n = 0
    · rw [if_pos h0] at hc
      exact Or.inl hc
    · rw [if_neg h0] at hc
      rcases ih (n / 10) (Nat.digitChar (n % 10) :: acc) c hc with hc' | hc'
      · rcases List.mem_cons.1 hc' with rfl | hc''
        · exact Or.inr ⟨n % 10, Nat.mod_lt n (by norm_num), rfl⟩
        · exact Or.inl hc''
      · exact Or.inr hc'

theorem natDecimal_mem (c : Char) (n : Nat) (h : c ∈ natDecimal n) :
    ∃ d, d < 10 ∧ c = Nat.digitChar d := by
  rw [natDecimal] at h
  by_cases hn : n = 0
  · rw [if_pos hn] at h
    have hc : c = '0' := by simpa using h
    exact ⟨0, by norm_num, by rw [hc]; rfl⟩
  · rw [if_neg hn] at h
    rcases natDecimalGo_mem n n [] c h with h' | h'
    · exact absurd h' (by simp)
    · exact h'

theorem natDecimalGo_ne_nil :
    ∀ fuel n acc, acc ≠ [] ∨ (n ≠ 0 ∧ fuel ≠ 0) → natDecimalGo fuel n acc ≠ [] := by
  intro fuel
  induction fuel with
  | zero =>
    intro n acc h
    rw [natDecimalGo]
    rcases h with h | ⟨-, h⟩
    · exact h
    · exact absurd rfl h
  | succ fuel ih =>
    intro n acc h
    rw [natDecimalGo]
    by_cases h0 : n = 0
    · rw [if_pos h0]
      rcases h with h | ⟨hn, -⟩
      · exact h
      · exact absurd h0 hn
    · rw [if_neg h0]
      exact ih (n / 10) (Nat.digitChar (n % 10) :: acc) (Or.inl (by simp))

theorem parseUsize_natDecimal (n : Nat) (h : n < 2 ^ 64) :
    parseUsize? (natDecimal n) = some n := by
  by_cases hn : n = 0
  · subst hn
    decide
  · rw [natDecimal, if_neg hn]
    have hne : natDecimalGo n n [] ≠ [] :=
      natDecimalGo_ne_nil n n [] (Or.inr ⟨hn, hn⟩)
    obtain ⟨c, cs, hcons⟩ : ∃ c cs, natDecimalGo n n [] = c :: cs := by
      cases hgo : natDecimalGo n n [] with
      | nil => exact absurd hgo hne
      | cons c cs => exact ⟨c, cs, rfl⟩
    have hcdig : ∃ d, d < 10 ∧ c = Nat.digitChar d := by
      have hc : c ∈ natDecimalGo n n [] := by
        rw [hcons]
        exact List.mem_cons_self c cs
      rcases natDecimalGo_mem n n [] c hc with h' | h'
      · exact absurd h' (by simp)
      · exact h'
    have hplus : ¬c = '+' := by
      obtain ⟨d, hd, rfl⟩ := hcdig
      exact (digitChar_facts d hd).2.2.1
    rw [parseUsize?, hcons, stripPlus, if_neg hplus]
    have hdo : digitsOnly? (c :: cs) = parseDigits 0 (c :: cs) := rfl
    rw [hdo, ← hcons, parseDigits_natDecimalGo n n [] 0 (Nat.le_refl n)]
    rw [valCat_self]
    simp only [parseDigits, Option.some_bind, if_pos h]

theorem natDecimal_all_ne_comma (m : Nat) :
    ∀ c ∈ natDecimal m, (c != ',') = true := by
  intro c hc
  obtain ⟨d, hd, rfl⟩ := natDecimal_mem c m hc
  simpa using (digitChar_facts d hd).2.1

theorem natDecimal_count_comma (m : Nat) : (natDecimal m).count ',' = 0 := by
  rw [List.count_eq_zero]
  intro hmem
  obtain ⟨d, hd, hc⟩ := natDecimal_mem ',' m hmem
  exact (digitChar_facts d hd).2.1 hc.symm

theorem ne_of_leadsWith (p s kw : List Char) (h1 : leadsWith p s = true)
    (h2 : leadsWith p kw = false) : s ≠ kw := by
  intro he
  rw [he, h2] at h1
  exact absurd h1 (by simp)

theorem takeWhile_append_all (p : Char → Bool) :
    ∀ (l : List Char), (∀ c ∈ l, p c = true) → ∀ x r, p x = false →
      (l ++ x :: r).takeWhile p = l ∧ (l ++ x :: r).dropWhile p = x :: r := by
  intro l
  induction l with
  | nil =>
    intro _ x r hx
    constructor
    · simp [List.takeWhile_cons, hx]
    · simp [List.dropWhile_cons, hx]
  | cons a as ih =>
    intro hall x r hx
    have ha : p a = true := hall a (List.mem_cons_self a as)
    have hrec := ih (fun c hc => hall c (List.mem_cons_of_mem a hc)) x r hx
    constructor
    · simp only [List.cons_append, List.takeWhile_cons, ha, if_true, hrec.1]
    · simp only [List.cons_append, List.dropWhile_cons, ha, if_true, hrec.2]

/-- Claim C10: the color parser performs no upper-bound range check on
the numeric arguments of `fixed(N)` and `rgb(R,G,B)`: all non-negative
integers fitting the 64-bit machine word parse successfully, and the
produced escape sequence embeds their decimal text verbatim, even
beyond the 255 limit of the terminal palettes. -/
theorem color_no_upper_bound (n r g b : Nat)
    (hn : n < 2 ^ 64) (hr : r < 2 ^ 64) (hg : g < 2 ^ 64) (hb : b < 2 ^ 64) :
    Color.fromStr ("fixed(".toList ++ natDecimal n ++ [')']) =
      Except.ok (Color.Ansi ("\x1B[38;5;".toList ++ natDecimal n ++ ['m'])) ∧
    Color.fromStr ("rgb(".toList ++ natDecimal r ++ [','] ++ natDecimal g ++ [','] ++
        natDecimal b ++ [')']) =
      Except.ok (Color.Ansi ("\x1B[38;2;".toList ++ natDecimal r ++ [';'] ++
        natDecimal g ++ [';'] ++ natDecimal b ++ ['m'])) := by
  constructor
  · have hlead : leadsWith "fixed(".toList
        ("fixed(".toList ++ natDecimal n ++ [')']) = true := by
      rw [List.append_assoc]
      exact leadsWith_append _ _
    have hlast : ("fixed(".toList ++ natDecimal n ++ [')']).getLast? = some ')' :=
      List.getLast?_concat _
    simp only [Color.fromStr]
    rw [if_neg (ne_of_leadsWith _ _ "default".toList hlead (by decide)),
      if_neg (ne_of_leadsWith _ _ "black".toList hlead (by decide)),
      if_neg (ne_of_leadsWith _ _ "red".toList hlead (by decide)),
      if_neg (ne_of_leadsWith _ _ "green".toList hlead (by decide)),
      if_neg (ne_of_leadsWith _ _ "yellow".toList hlead (by decide)),
      if_neg (ne_of_leadsWith _ _ "blue".toList hlead (by decide)),
      if_neg (ne_of_leadsWith _ _ "magenta".toList hlead (by decide)),
      if_neg (ne_of_leadsWith _ _ "cyan".toList hlead (by decide)),
      if_neg (ne_of_leadsWith _ _ "white".toList hlead (by decide)),
      if_pos ⟨hlead, hlast⟩,
      List.append_assoc ("fixed(".toList) (natDecimal n) [')'],
      List.drop_left, List.dropLast_concat, parseUsize_natDecimal n hn]
    rfl
  · have hform : "rgb(".toList ++ natDecimal r ++ [','] ++ natDecimal g ++ [','] ++
        natDecimal b ++ [')'] =
        "rgb(".toList ++
          ((natDecimal r ++ (',' :: (natDecimal g ++ (',' :: natDecimal b)))) ++ [')']) := by
      simp only [List.append_assoc, List.cons_append, List.singleton_append,
        List.nil_append]
    have hlead : leadsWith "rgb(".toList
        ("rgb(".toList ++ natDecimal r ++ [','] ++ natDecimal g ++ [','] ++
          natDecimal b ++ [')']) = true := by
      rw [hform]
      exact leadsWith_append _ _
    have hcount : ("rgb(".toList ++ natDecimal r ++ [','] ++ natDecimal g ++ [','] ++
        natDecimal b ++ [')']).count ',' = 2 := by
      simp only [List.count_append, natDecimal_count_comma]
      decide
    have hlast : ("rgb(".toList ++ natDecimal r ++ [','] ++ natDecimal g ++ [','] ++
        natDecimal b ++ [')']).getLast? = some ')' :=
      List.getLast?_concat _
    have hinpar : ((("rgb(".toList ++ natDecimal r ++ [','] ++ natDecimal g ++ [','] ++
        natDecimal b ++ [')']).drop "rgb(".toList.length).dropLast) =
        natDecimal r ++ (',' :: (natDecimal g ++ (',' :: natDecimal b))) := by
      rw [hform, List.drop_left, List.dropLast_concat]
    have hcomma : ((',' : Char) != ',') = false := by decide
    have hsplit1 := takeWhile_append_all (fun c => c != ',') (natDecimal r)
      (natDecimal_all_ne_comma r) ',' (natDecimal g ++ (',' :: natDecimal b)) hcomma
    have hsplit2 := takeWhile_append_all (fun c => c != ',') (natDecimal g)
      (natDecimal_all_ne_comma g) ',' (natDecimal b) hcomma
    simp only [Color.fromStr]
    rw [if_neg (ne_of_leadsWith _ _ "default".toList hlead (by decide)),
      if_neg (ne_of_leadsWith _ _ "black".toList hlead (by decide)),
      if_neg (ne_of_leadsWith _ _ "red".toList hlead (by decide)),
      if_neg (ne_of_leadsWith _ _ "green".toList hlead (by decide)),
      if_neg (ne_of_leadsWith _ _ "yellow".toList hlead (by decide)),
      if_neg (ne_of_leadsWith _ _ "blue".toList hlead (by decide)),
      if_neg (ne_of_leadsWith _ _ "magenta".toList hlead (by decide)),
      if_neg (ne_of_leadsWith _ _ "cyan".toList hlead (by decide)),
      if_neg (ne_of_leadsWith _ _ "white".toList hlead (by decide)),
      if_neg (fun hcon => by
        have hfixfalse : leadsWith "fixed(".toList
            ("rgb(".toList ++ natDecimal r ++ [','] ++ natDecimal g ++ [','] ++
              natDecimal b ++ [')']) = false := rfl
        have h1 := hcon.1
        rw [hfixfalse] at h1
        exact absurd h1 (by simp)),
      if_pos ⟨hlead, hcount, hlast⟩,
      hinpar, hsplit1.1, hsplit1.2, List.tail_cons, hsplit2.1, hsplit2.2, List.tail_cons,
      parseUsize_natDecimal r hr, parseUsize_natDecimal g hg, parseUsize_natDecimal b hb]
    rfl

/-- Claim C10 witness: `fixed(300)` with 300 beyond the 255 palette
limit parses successfully with `300` embedded verbatim. -/
theorem color_no_upper_bound_witness :
    Color.fromStr ("fixed(".toList ++ natDecimal 300 ++ [')']) =
      Except.ok (Color.Ansi ("\x1B[38;5;".toList ++ natDecimal 300 ++ ['m'])) :=
  (color_no_upper_bound 300 999 0 0 (by decide) (by decide) (by decide) (by decide)).1
